import Mathlib

/-
Verification of the disruptor-cpp concurrency core against its specification.

The C++ sources are shallowly embedded: C++ long is Int (no operation here
approaches the 64-bit range), stateful methods become explicit state-passing
functions, a method that throws returns an Except value, and a loop that can
spin forever under a fixed snapshot of the shared state returns an Option
(none = the loop never exits).  Gating sequences, dependency sequences and the
availability buffer are snapshots taken as plain lists of values.
-/

namespace Disruptor

/-- C++ LONG_MAX for a 64-bit long, the fold seed used by getMinimumSequence. -/
def longMax : Int := 2 ^ 63 - 1

/-- util.h getMinimumSequence: the minimum of the sequence values, starting the
fold at LONG_MAX, or defaultValue when the list is empty. -/
def getMinimumSequence (sequences : List Int) (defaultValue : Int) : Int :=
  if sequences.isEmpty then defaultValue
  else sequences.foldl (fun minimum s => min minimum s) longMax

/-- Error surface of the sequencer / ring-buffer API (exceptions.h plus the
assert in AbstractSequencer). -/
inductive DError where
  | invalidArgument
  | invalidCapacity
  | insufficientCapacity
  deriving DecidableEq, Repr

/-- sequencer section of util.h: isPowerOfTwo(value) is
value > 0 && (value & (value - 1)) == 0; the bitand is evaluated only when
value > 0, where toNat is exact. -/
def isPowerOfTwo (value : Int) : Bool :=
  decide (0 < value) && (value.toNat &&& (value.toNat - 1) == 0)

/-- State of SingleProducerSequencer: bufferSize, a snapshot of the values of
the registered gating sequences, the cursor, and the producer-local nextValue
and cachedValue (both start at Sequence::INITIAL_VALUE = -1). -/
structure SingleProducerSequencer where
  bufferSize : Int
  gating : List Int
  cursor : Int
  nextValue : Int
  cachedValue : Int
  deriving DecidableEq, Repr

/-- SingleProducerSequencer::next(n).  Under a fixed gating snapshot the
wrap-point spin (while wrapPoint > getMinimumSequence(...) yield) either exits
without an iteration or never exits; none models the latter. -/
def SingleProducerSequencer.next (s : SingleProducerSequencer) (n : Int) : Option (Except DError Int × SingleProducerSequencer) :=
  if n < 1 ∨ s.bufferSize < n then some (Except.error DError.invalidArgument, s)
  else
    let nextSeq := s.nextValue + n
    let wrapPoint := nextSeq - s.bufferSize
    let cachedGating := s.cachedValue
    if cachedGating < wrapPoint ∨ s.nextValue < cachedGating then
      let s1 : SingleProducerSequencer := { s with cursor := s.nextValue }
      let minSequence := getMinimumSequence s.gating s.nextValue
      if minSequence < wrapPoint then none
      else some (Except.ok nextSeq, { s1 with cachedValue := minSequence, nextValue := nextSeq })
    else some (Except.ok nextSeq, { s with nextValue := nextSeq })

/-- SingleProducerSequencer::hasAvailableCapacity(requiredCapacity, doStore). -/
def SingleProducerSequencer.hasAvailableCapacity (s : SingleProducerSequencer) (requiredCapacity : Int) (doStore : Bool) :
    Bool × SingleProducerSequencer :=
  let wrapPoint := (s.nextValue + requiredCapacity) - s.bufferSize
  let cachedGating := s.cachedValue
  if cachedGating < wrapPoint ∨ s.nextValue < cachedGating then
    let s1 : SingleProducerSequencer := if doStore then { s with cursor := s.nextValue } else s
    let minSequence := getMinimumSequence s.gating s.nextValue
    let s2 : SingleProducerSequencer := { s1 with cachedValue := minSequence }
    if minSequence < wrapPoint then (false, s2) else (true, s2)
  else (true, s)

/-- SingleProducerSequencer::tryNext(n): validates only n >= 1, then either
fails with InsufficientCapacity or advances nextValue. -/
def SingleProducerSequencer.tryNext (s : SingleProducerSequencer) (n : Int) : Except DError Int × SingleProducerSequencer :=
  if n < 1 then (Except.error DError.invalidArgument, s)
  else
    match SingleProducerSequencer.hasAvailableCapacity s n true with
    | (false, s1) => (Except.error DError.insufficientCapacity, s1)
    | (true, s1) =>
      let nv := s1.nextValue + n
      (Except.ok nv, { s1 with nextValue := nv })

/-- State of MultiProducerSequencer: indexMask = bufferSize - 1,
indexShift = log2(bufferSize), availableBuffer of bufferSize ints initialized
to -1, and the shared cursor and gatingSequenceCache. -/
structure MultiProducerSequencer where
  bufferSize : Int
  indexShift : Nat
  indexMask : Int
  gating : List Int
  cursor : Int
  gatingSequenceCache : Int
  availableBuffer : List Int
  deriving DecidableEq, Repr

/-- MultiProducerSequencer::calculateIndex:
static_cast<int>(sequence) & indexMask (exact for the nonnegative sequences
the claim protocol produces). -/
def MultiProducerSequencer.calculateIndex (st : MultiProducerSequencer) (s : Int) : Nat :=
  s.toNat &&& st.indexMask.toNat

/-- MultiProducerSequencer::calculateAvailabilityFlag:
static_cast<int>(sequence >> indexShift); the arithmetic shift of a long is
floor division by 2 ^ indexShift. -/
def MultiProducerSequencer.calculateAvailabilityFlag (st : MultiProducerSequencer) (s : Int) : Int :=
  Int.fdiv s (2 ^ st.indexShift)

/-- MultiProducerSequencer::setAvailable: store the availability flag at the
slot index of the sequence. -/
def MultiProducerSequencer.setAvailable (st : MultiProducerSequencer) (s : Int) : MultiProducerSequencer :=
  { st with availableBuffer :=
      st.availableBuffer.set (st.calculateIndex s) (st.calculateAvailabilityFlag s) }

/-- MultiProducerSequencer::isAvailable: the slot entry equals the flag. -/
def MultiProducerSequencer.isAvailable (st : MultiProducerSequencer) (s : Int) : Bool :=
  st.availableBuffer.getD (st.calculateIndex s) 0 == st.calculateAvailabilityFlag s

/-- MultiProducerSequencer::publish(sequence) (signalAllWhenBlocking touches no
sequencer state). -/
def MultiProducerSequencer.publish (st : MultiProducerSequencer) (s : Int) : MultiProducerSequencer := st.setAvailable s

/-- The scan loop of getHighestPublishedSequence, fuelled by the number of
remaining loop iterations (sequence runs from the start value while
sequence <= availableSequence). -/
def scanHighest (p : Int → Bool) (available : Int) : Nat → Int → Int
  | 0, _ => available
  | fuel + 1, s => if p s then scanHighest p available fuel (s + 1) else s - 1

/-- MultiProducerSequencer::getHighestPublishedSequence(lowerBound, available):
return sequence - 1 at the first unavailable sequence, available when the scan
completes. -/
def MultiProducerSequencer.getHighestPublishedSequence (st : MultiProducerSequencer) (lowerBound availableSequence : Int) : Int :=
  scanHighest (fun s => st.isAvailable s) availableSequence
    (availableSequence + 1 - lowerBound).toNat lowerBound

/-- MultiProducerSequencer::next(n), linearized to one producer step:
cursor.getAndAdd(n) claims the interval, then the wrap-point spin runs against
the fixed gating snapshot (none = never exits). -/
def MultiProducerSequencer.next (st : MultiProducerSequencer) (n : Int) : Option (Except DError Int × MultiProducerSequencer) :=
  if n < 1 ∨ st.bufferSize < n then some (Except.error DError.invalidArgument, st)
  else
    let current := st.cursor
    let st1 : MultiProducerSequencer := { st with cursor := current + n }
    let nextSequence := current + n
    let wrapPoint := nextSequence - st.bufferSize
    let cachedGating := st.gatingSequenceCache
    if cachedGating < wrapPoint ∨ current < cachedGating then
      let gatingSequence := getMinimumSequence st.gating current
      if gatingSequence < wrapPoint then none
      else some (Except.ok nextSequence, { st1 with gatingSequenceCache := gatingSequence })
    else some (Except.ok nextSequence, st1)

/-- MultiProducerSequencer::hasAvailableCapacity(requiredCapacity, cursorValue). -/
def MultiProducerSequencer.hasAvailableCapacityAt (st : MultiProducerSequencer) (requiredCapacity cursorValue : Int) :
    Bool × MultiProducerSequencer :=
  let wrapPoint := (cursorValue + requiredCapacity) - st.bufferSize
  let cachedGating := st.gatingSequenceCache
  if cachedGating < wrapPoint ∨ cursorValue < cachedGating then
    let minSequence := getMinimumSequence st.gating cursorValue
    let st1 : MultiProducerSequencer := { st with gatingSequenceCache := minSequence }
    if minSequence < wrapPoint then (false, st1) else (true, st1)
  else (true, st)

/-- MultiProducerSequencer::tryNext(n), linearized: with no concurrent producer
the compareAndSet succeeds on the first attempt. -/
def MultiProducerSequencer.tryNext (st : MultiProducerSequencer) (n : Int) : Except DError Int × MultiProducerSequencer :=
  if n < 1 then (Except.error DError.invalidArgument, st)
  else
    let current := st.cursor
    let nextSequence := current + n
    match MultiProducerSequencer.hasAvailableCapacityAt st n current with
    | (false, st1) => (Except.error DError.insufficientCapacity, st1)
    | (true, st1) => (Except.ok nextSequence, { st1 with cursor := nextSequence })

/-- A constructed ring buffer: capacity and the preallocated slot array. -/
structure RingBufferModel (T : Type) where
  bufferSize : Int
  entries : List T

/-- RingBuffer construction over a sequencer: AbstractSequencer checks
isPowerOfTwo(bufferSize) (its assert is modelled as the InvalidCapacity error)
and the RingBuffer constructor fills slot i from the i-th factory call; the
factory is modelled by its call index, so call i populates slot i. -/
def mkRingBuffer (T : Type) (factory : Nat → T) (bufferSize : Int) :
    Except DError (RingBufferModel T) :=
  if isPowerOfTwo bufferSize then
    Except.ok ⟨bufferSize, (List.range bufferSize.toNat).map factory⟩
  else Except.error DError.invalidCapacity

/-- Outcome of a waitFor call that terminates. -/
inductive WaitResult where
  | alerted
  | available (v : Int)
  deriving DecidableEq, Repr

/-- BusySpinWaitStrategy::waitFor under a fixed snapshot: the availability check
runs before the first batched alert check (alert is polled every 256
iterations), so a satisfied target returns at once even when the flag is set;
otherwise the flag is observed at iteration 256; with neither, the spin never
exits (none). -/
def busySpinWaitFor (sequence cursor : Int) (dependents : List Int) (alerted : Bool) :
    Option WaitResult :=
  let available := if dependents.isEmpty then cursor else getMinimumSequence dependents cursor
  if sequence ≤ available then some (WaitResult.available available)
  else if alerted then some WaitResult.alerted
  else none

/-- YieldingWaitStrategy::waitFor under a fixed snapshot: availability is
checked first each round; the alert flag only when the spin counter reaches
zero, before yielding. -/
def yieldingWaitFor (sequence cursor : Int) (dependents : List Int) (alerted : Bool) :
    Option WaitResult :=
  let available := if dependents.isEmpty then cursor else getMinimumSequence dependents cursor
  if sequence ≤ available then some (WaitResult.available available)
  else if alerted then some WaitResult.alerted
  else none

/-- SleepingWaitStrategy::waitFor under a fixed snapshot: the alert flag is
checked first on every outer iteration, then availability. -/
def sleepingWaitFor (sequence cursor : Int) (dependents : List Int) (alerted : Bool) :
    Option WaitResult :=
  if alerted then some WaitResult.alerted
  else
    let available := if dependents.isEmpty then cursor else getMinimumSequence dependents cursor
    if sequence ≤ available then some (WaitResult.available available)
    else none

/-- BlockingWaitStrategy::waitFor under a fixed snapshot: alert first, then
available = getMinimumSequence(dependents, cursor.get()) unconditionally. -/
def blockingWaitFor (sequence cursor : Int) (dependents : List Int) (alerted : Bool) :
    Option WaitResult :=
  if alerted then some WaitResult.alerted
  else
    let available := getMinimumSequence dependents cursor
    if sequence ≤ available then some (WaitResult.available available)
    else none

/-- The for loop of one drain in BatchEventProcessor::run: call
handler.onEvent for fuel sequences starting at seq; a throwing handler aborts
the loop.  Returns the sequences passed to onEvent (the throwing call
included) and the sequence at which the handler threw, if any. -/
def bepForLoop (throws : Int → Bool) : Nat → Int → List Int × Option Int
  | 0, _ => ([], none)
  | fuel + 1, seq =>
    if throws seq then ([seq], some seq)
    else
      let r := bepForLoop throws fuel (seq + 1)
      (seq :: r.1, r.2)

/-- Observable state of a BatchEventProcessor across one loop iteration: its
own Sequence, the local nextSequence, the sequence arguments of the
handleEventException calls made so far, and the onEvent calls made so far. -/
structure BEPState where
  ownSequence : Int
  nextSequence : Int
  excCalls : List Int
  onEventCalls : List Int
  deriving DecidableEq, Repr

/-- One iteration of the while loop of BatchEventProcessor::run after
barrier.waitFor(nextSequence) returned available: a clean drain of
[nextSequence .. available] sets sequence = available and
nextSequence = available + 1; when the handler throws, the catch block calls
handleEventException with the current nextSequence (the drain start: the for
loop runs on a separate variable seq that is not copied back), sets the
processor Sequence to nextSequence and increments nextSequence by one. -/
def BatchEventProcessor.iterate (throws : Int → Bool) (st : BEPState) (available : Int) : BEPState :=
  let fuel := (available + 1 - st.nextSequence).toNat
  match bepForLoop throws fuel st.nextSequence with
  | (calls, none) =>
    { st with onEventCalls := st.onEventCalls ++ calls,
              ownSequence := available, nextSequence := available + 1 }
  | (calls, some _) =>
    { st with onEventCalls := st.onEventCalls ++ calls,
              excCalls := st.excCalls ++ [st.nextSequence],
              ownSequence := st.nextSequence,
              nextSequence := st.nextSequence + 1 }

/-- The per-event try/catch loop of WorkProcessor::run over one claimed chunk:
each iteration calls handler.onEvent inside a try whose catch(...) body is
empty.  Returns (sequences attempted, sequences that completed without a
throw). -/
def wpConsumeLoop (throws : Int → Bool) : Nat → Int → List Int × List Int
  | 0, _ => ([], [])
  | fuel + 1, s =>
    let r := wpConsumeLoop throws fuel (s + 1)
    (s :: r.1, if throws s then r.2 else s :: r.2)

/-- Result of consuming one chunk in WorkProcessor::run. -/
structure WPChunkResult where
  attempted : List Int
  succeeded : List Int
  excDeliveries : List Int
  finalSequence : Int
  deriving DecidableEq, Repr

/-- WorkProcessor::run, consumption of the chunk [nextSequence .. hi] followed
by sequence_.set(hi).  The catch body swallows the handler exception and
WorkProcessor has no exception-handler member, so no delivery happens. -/
def WorkProcessor.consumeChunk (throws : Int → Bool) (nextSequence hi : Int) : WPChunkResult :=
  let r := wpConsumeLoop throws (hi + 1 - nextSequence).toNat nextSequence
  ⟨r.1, r.2, [], hi⟩

/-- Linearized trace of workSequence.getAndAdd(1) claims made by the workers of
a WorkerPool (the pool constructs every WorkProcessor with workBatchSize = 1):
the i-th claimer in the trace receives the current counter value and the
counter advances by one. -/
def runClaimTrace : List Nat → Int → List (Nat × Int)
  | [], _ => []
  | w :: ws, counter => (w, counter) :: runClaimTrace ws (counter + 1)

/-- Claim events of a pool whose shared workSequence starts at
Sequence::INITIAL_VALUE = -1. -/
def poolClaims (trace : List Nat) : List (Nat × Int) := runClaimTrace trace (-1)

/-- Sequences handled by worker w when the sequences 0 .. M-1 are published: a
claim (w, base) leads to processing sequence base + 1 once it is published; a
claim beyond the published range blocks in waitFor and handles nothing. -/
def handledSeqs (trace : List Nat) (M : Int) (w : Nat) : List Int :=
  ((poolClaims trace).filter (fun e => e.1 == w && decide (e.2 + 1 < M))).map
    (fun e => e.2 + 1)

/-- State of a SequenceBarrier: the cursor value, the snapshot of dependent
sequence values, and the alert flag. -/
structure BarrierState where
  cursor : Int
  dependents : List Int
  alerted : Bool
  deriving DecidableEq, Repr

/-- SequenceBarrier::alert (signalAllWhenBlocking holds no barrier state). -/
def BarrierState.alert (b : BarrierState) : BarrierState := { b with alerted := true }

/-- SequenceBarrier::clearAlert. -/
def BarrierState.clearAlert (b : BarrierState) : BarrierState := { b with alerted := false }

/-- SequenceBarrier::isAlerted. -/
def BarrierState.isAlerted (b : BarrierState) : Bool := b.alerted

/-- Observable state of an event processor for halt: the running flag and its
barrier. -/
structure ProcessorState where
  running : Bool
  barrier : BarrierState
  deriving DecidableEq, Repr

/-- BatchEventProcessor::halt / WorkProcessor::halt: store running = false and
alert the barrier. -/
def ProcessorState.halt (p : ProcessorState) : ProcessorState :=
  ⟨false, p.barrier.alert⟩

/-- State of a BatchPublisher; ring-buffer publish(lo, hi) calls are recorded
as the closed interval they cover. -/
structure BatchPublisherState where
  batchCapacity : Int
  currentBatchSize : Int
  highSequence : Int
  lowSequence : Int
  nextSequence : Int
  published : List (Int × Int)
  deriving DecidableEq, Repr

/-- BatchPublisher::endBatch(count): publish(lowSequence, lowSequence+count-1)
when 0 < count <= batchCapacity, nothing otherwise; currentBatchSize is reset
to 0 in every case and no other field changes. -/
def BatchPublisherState.endBatchCount (st : BatchPublisherState) (count : Int) :
    BatchPublisherState :=
  let st1 := if 0 < count ∧ count ≤ st.batchCapacity then
      { st with published := st.published ++ [(st.lowSequence, st.lowSequence + count - 1)] }
    else st
  { st1 with currentBatchSize := 0 }

/-- Concrete single-producer sequencer used by witnesses. -/
def spsW : SingleProducerSequencer := ⟨8, [4], 2, 5, 4⟩

/-- Concrete multi-producer sequencer used by witnesses. -/
def mpsW : MultiProducerSequencer := ⟨8, 3, 7, [], -1, -1, List.replicate 8 (-1)⟩

/-- Concrete barrier state used by witnesses. -/
def bW : BarrierState := ⟨5, [3], false⟩

/-- Concrete batch-publisher state used by witnesses. -/
def bpW : BatchPublisherState := ⟨4, 4, 3, 0, 0, []⟩

/-- Concrete ring buffer used by witnesses. -/
def rbW : RingBufferModel Nat := ⟨4, [0, 1, 2, 3]⟩

/-- The fold of getMinimumSequence never exceeds its seed. -/
theorem foldlMin_le_init (l : List Int) : ∀ a : Int, l.foldl (fun m s => min m s) a ≤ a := by
  induction l with
  | nil => intro a; exact le_refl a
  | cons x xs ih => intro a; exact le_trans (ih (min a x)) (min_le_left a x)

/-- The fold of getMinimumSequence is a lower bound of the list. -/
theorem foldlMin_le_mem (l : List Int) : ∀ (a x : Int), x ∈ l →
    l.foldl (fun m s => min m s) a ≤ x := by
  induction l with
  | nil => intro a x hx; cases hx
  | cons y ys ih =>
    intro a x hx
    rcases List.mem_cons.mp hx with h | h
    · subst h
      exact le_trans (foldlMin_le_init ys (min a x)) (min_le_right a x)
    · exact ih (min a y) x h

/-- The fold of getMinimumSequence is the seed or an element of the list. -/
theorem foldlMin_eq_init_or_mem (l : List Int) : ∀ a : Int,
    l.foldl (fun m s => min m s) a = a ∨ l.foldl (fun m s => min m s) a ∈ l := by
  induction l with
  | nil => intro a; exact Or.inl rfl
  | cons y ys ih =>
    intro a
    rcases ih (min a y) with h | h
    · rcases min_choice a y with hm | hm
      · exact Or.inl (by rw [List.foldl_cons, h, hm])
      · exact Or.inr (by rw [List.foldl_cons, h, hm]; exact List.mem_cons_self y ys)
    · exact Or.inr (List.mem_cons_of_mem y h)

/-- On a nonempty list of long values, getMinimumSequence returns the least
element of the list (the default is ignored). -/
theorem getMinimumSequence_spec (l : List Int) (d : Int) (hne : l ≠ [])
    (hb : ∀ x ∈ l, x ≤ longMax) :
    getMinimumSequence l d ∈ l ∧ ∀ x ∈ l, getMinimumSequence l d ≤ x := by
  have hemp : l.isEmpty = false := by
    cases l with
    | nil => exact absurd rfl hne
    | cons y ys => rfl
  rw [getMinimumSequence, hemp]
  simp only [Bool.false_eq_true, if_false]
  refine ⟨?_, fun x hx => foldlMin_le_mem l longMax x hx⟩
  rcases foldlMin_eq_init_or_mem l longMax with h | h
  · obtain ⟨y, ys, rfl⟩ := List.exists_cons_of_ne_nil hne
    have h1 : (y :: ys).foldl (fun m s => min m s) longMax ≤ y :=
      foldlMin_le_mem _ _ _ (List.mem_cons_self y ys)
    have h2 : y ≤ longMax := hb y (List.mem_cons_self y ys)
    have : (y :: ys).foldl (fun m s => min m s) longMax = y := by omega
    rw [this]; exact List.mem_cons_self y ys
  · exact h

/-- C8: For both sequencer variants, next(n) raises InvalidArgument for every
n < 1 and for every n > bufferSize, while tryNext(n) validates only n >= 1
(for n >= 1 it never reports InvalidArgument); a failed validation leaves the
sequencer's claim state unchanged (the state is returned as given). -/
theorem sequencer_argument_validation :
    (∀ (s : SingleProducerSequencer) (n : Int), n < 1 ∨ s.bufferSize < n →
        s.next n = some (Except.error DError.invalidArgument, s)) ∧
    (∀ (st : MultiProducerSequencer) (n : Int), n < 1 ∨ st.bufferSize < n →
        st.next n = some (Except.error DError.invalidArgument, st)) ∧
    (∀ (s : SingleProducerSequencer) (n : Int), n < 1 →
        s.tryNext n = (Except.error DError.invalidArgument, s)) ∧
    (∀ (s : SingleProducerSequencer) (n : Int), 1 ≤ n →
        (s.tryNext n).1 ≠ Except.error DError.invalidArgument) ∧
    (∀ (st : MultiProducerSequencer) (n : Int), n < 1 →
        st.tryNext n = (Except.error DError.invalidArgument, st)) ∧
    (∀ (st : MultiProducerSequencer) (n : Int), 1 ≤ n →
        (st.tryNext n).1 ≠ Except.error DError.invalidArgument) := by
  refine ⟨?_, ?_, ?_, ?_, ?_, ?_⟩
  · intro s n h
    rw [SingleProducerSequencer.next, if_pos h]
  · intro st n h
    rw [MultiProducerSequencer.next, if_pos h]
  · intro s n h
    rw [SingleProducerSequencer.tryNext, if_pos h]
  · intro s n h
    rw [SingleProducerSequencer.tryNext, if_neg (by omega)]
    rcases hcap : s.hasAvailableCapacity n true with ⟨ok, s1⟩
    cases ok <;> simp [hcap]
  · intro st n h
    rw [MultiProducerSequencer.tryNext, if_pos h]
  · intro st n h
    rw [MultiProducerSequencer.tryNext, if_neg (by omega)]
    rcases hcap : st.hasAvailableCapacityAt n st.cursor with ⟨ok, st1⟩
    cases ok <;> simp [hcap]

/-- Witness for C8 at next(0), next(N+1) and tryNext(0) on concrete states. -/
theorem sequencer_argument_validation_witness :
    ((0 : Int) < 1 ∨ spsW.bufferSize < 0) ∧
    spsW.next 0 = some (Except.error DError.invalidArgument, spsW) ∧
    ((9 : Int) < 1 ∨ mpsW.bufferSize < 9) ∧
    mpsW.next 9 = some (Except.error DError.invalidArgument, mpsW) ∧
    spsW.tryNext 0 = (Except.error DError.invalidArgument, spsW) ∧
    (spsW.tryNext 1).1 ≠ Except.error DError.invalidArgument :=
  ⟨Or.inl (by decide),
   sequencer_argument_validation.1 spsW 0 (Or.inl (by decide)),
   Or.inr (by decide),
   sequencer_argument_validation.2.1 mpsW 9 (Or.inr (by decide)),
   sequencer_argument_validation.2.2.1 spsW 0 (by decide),
   sequencer_argument_validation.2.2.2.1 spsW 1 (by decide)⟩

/-- Alert iteration keeps every field except the flag. -/
theorem alert_iterate_fields (b : BarrierState) : ∀ n : Nat,
    (BarrierState.alert^[n] b).cursor = b.cursor ∧
    (BarrierState.alert^[n] b).dependents = b.dependents := by
  intro n
  induction n with
  | zero => exact ⟨rfl, rfl⟩
  | succ m ih =>
    rw [Function.iterate_succ_apply']
    exact ⟨ih.1, ih.2⟩

/-- C9: clearAlert then alert equals alert alone; repeated alert calls leave
isAlerted true and touch no other barrier state; clearAlert makes isAlerted
false and touches no other state; halt is idempotent. -/
theorem barrier_alert_algebra :
    (∀ b : BarrierState, b.clearAlert.alert = b.alert) ∧
    (∀ (b : BarrierState) (n : Nat), 1 ≤ n →
      (BarrierState.alert^[n] b).isAlerted = true ∧
      (BarrierState.alert^[n] b).cursor = b.cursor ∧
      (BarrierState.alert^[n] b).dependents = b.dependents) ∧
    (∀ b : BarrierState, b.clearAlert.isAlerted = false ∧
      b.clearAlert.cursor = b.cursor ∧ b.clearAlert.dependents = b.dependents) ∧
    (∀ p : ProcessorState, p.halt.halt = p.halt) := by
  refine ⟨fun b => rfl, ?_, fun b => ⟨rfl, rfl, rfl⟩, fun p => rfl⟩
  intro b n hn
  refine ⟨?_, (alert_iterate_fields b n).1, (alert_iterate_fields b n).2⟩
  obtain ⟨m, rfl⟩ : ∃ m, n = m + 1 := ⟨n - 1, by omega⟩
  rw [Function.iterate_succ_apply']
  rfl

/-- Witness for C9 at a concrete barrier and two alert calls. -/
theorem barrier_alert_algebra_witness :
    1 ≤ 2 ∧
    ((BarrierState.alert^[2] bW).isAlerted = true ∧
     (BarrierState.alert^[2] bW).cursor = bW.cursor ∧
     (BarrierState.alert^[2] bW).dependents = bW.dependents) :=
  ⟨by decide, barrier_alert_algebra.2.1 bW 2 (by decide)⟩

/-- C10: endBatch(count) publishes exactly the interval
[lowSequence, lowSequence + count - 1] when 1 <= count <= batchCapacity,
publishes nothing (and raises nothing: the operation is total) otherwise, and
in every case resets currentBatchSize to 0 leaving all other fields unchanged. -/
theorem batchPublisher_endBatch_spec (st : BatchPublisherState) (count : Int) :
    ((1 ≤ count ∧ count ≤ st.batchCapacity) →
      (st.endBatchCount count).published =
        st.published ++ [(st.lowSequence, st.lowSequence + count - 1)]) ∧
    ((count ≤ 0 ∨ st.batchCapacity < count) →
      (st.endBatchCount count).published = st.published) ∧
    (st.endBatchCount count).currentBatchSize = 0 ∧
    (st.endBatchCount count).batchCapacity = st.batchCapacity ∧
    (st.endBatchCount count).lowSequence = st.lowSequence ∧
    (st.endBatchCount count).highSequence = st.highSequence ∧
    (st.endBatchCount count).nextSequence = st.nextSequence := by
  by_cases h : 0 < count ∧ count ≤ st.batchCapacity
  · rw [BatchPublisherState.endBatchCount, if_pos h]
    exact ⟨fun _ => rfl, fun hc => by omega, rfl, rfl, rfl, rfl, rfl⟩
  · rw [BatchPublisherState.endBatchCount, if_neg h]
    exact ⟨fun hc => by omega, fun _ => rfl, rfl, rfl, rfl, rfl, rfl⟩

/-- Witness for C10 at a concrete publisher state and count = 2. -/
theorem batchPublisher_endBatch_spec_witness :
    (1 ≤ (2 : Int) ∧ (2 : Int) ≤ bpW.batchCapacity) ∧
    (bpW.endBatchCount 2).published = bpW.published ++ [(bpW.lowSequence, bpW.lowSequence + 2 - 1)] :=
  ⟨⟨by decide, by decide⟩, (batchPublisher_endBatch_spec bpW 2).1 ⟨by decide, by decide⟩⟩

/-- C1: with 1 <= n <= bufferSize, SingleProducerSequencer::next(n) returns
nextValue + n and stores it into nextValue; under a fixed gating snapshot it
blocks (spinning with yield) exactly when the cached gating value was stale
and wrapPoint = nextValue + n - bufferSize still exceeds the minimum of the
gating sequences; whenever the cache was stale (wrapPoint > cachedValue or
cachedValue > nextValue) and the call returns, cachedValue has been refreshed
to that minimum. -/
theorem singleProducer_next_spec (s : SingleProducerSequencer) (n : Int)
    (h1 : 1 ≤ n) (h2 : n ≤ s.bufferSize) :
    (s.next n = none ↔
      ((s.cachedValue < s.nextValue + n - s.bufferSize ∨ s.nextValue < s.cachedValue) ∧
        getMinimumSequence s.gating s.nextValue < s.nextValue + n - s.bufferSize)) ∧
    (∀ (r : Except DError Int) (s1 : SingleProducerSequencer), s.next n = some (r, s1) →
      r = Except.ok (s.nextValue + n) ∧
      s1.nextValue = s.nextValue + n ∧
      s1.cachedValue =
        (if s.cachedValue < s.nextValue + n - s.bufferSize ∨ s.nextValue < s.cachedValue
          then getMinimumSequence s.gating s.nextValue else s.cachedValue) ∧
      s1.bufferSize = s.bufferSize ∧ s1.gating = s.gating) := by
  have hno : ¬ (n < 1 ∨ s.bufferSize < n) := by omega
  by_cases hstale : s.cachedValue < s.nextValue + n - s.bufferSize ∨ s.nextValue < s.cachedValue
  · by_cases hspin : getMinimumSequence s.gating s.nextValue < s.nextValue + n - s.bufferSize
    · rw [SingleProducerSequencer.next, if_neg hno]
      simp only [if_pos hstale, if_pos hspin]
      exact ⟨by simp [hstale, hspin], by intro r s1 h; cases h⟩
    · rw [SingleProducerSequencer.next, if_neg hno]
      simp only [if_pos hstale, if_neg hspin]
      refine ⟨by simp [hspin], ?_⟩
      intro r s1 h
      injection h with h
      injection h with hr hs
      subst hr; subst hs
      exact ⟨rfl, rfl, rfl, rfl, rfl⟩
  · rw [SingleProducerSequencer.next, if_neg hno]
    simp only [if_neg hstale]
    refine ⟨iff_of_false (by simp) (fun hc => hstale hc.1), ?_⟩
    intro r s1 h
    injection h with h
    injection h with hr hs
    subst hr; subst hs
    exact ⟨rfl, rfl, rfl, rfl, rfl⟩

/-- Witness for C1 at a concrete sequencer with a fresh (non-stale) cache. -/
theorem singleProducer_next_spec_witness :
    1 ≤ (2 : Int) ∧ (2 : Int) ≤ spsW.bufferSize ∧
    ((spsW.next 2 = none ↔
      ((spsW.cachedValue < spsW.nextValue + 2 - spsW.bufferSize ∨
          spsW.nextValue < spsW.cachedValue) ∧
        getMinimumSequence spsW.gating spsW.nextValue <
          spsW.nextValue + 2 - spsW.bufferSize)) ∧
     (∀ (r : Except DError Int) (s1 : SingleProducerSequencer),
        spsW.next 2 = some (r, s1) →
        r = Except.ok (spsW.nextValue + 2) ∧
        s1.nextValue = spsW.nextValue + 2 ∧
        s1.cachedValue =
          (if spsW.cachedValue < spsW.nextValue + 2 - spsW.bufferSize ∨
              spsW.nextValue < spsW.cachedValue
            then getMinimumSequence spsW.gating spsW.nextValue else spsW.cachedValue) ∧
        s1.bufferSize = spsW.bufferSize ∧ s1.gating = spsW.gating)) :=
  ⟨by decide, by decide, singleProducer_next_spec spsW 2 (by decide) (by decide)⟩

/-- C5 counterexample: BusySpinWaitStrategy returns the minimum of the
dependency sequences alone; with cursor 5 and dependency 10 it returns 10,
which is not min(cursor, min(dependencies)) = 5. -/
theorem waitFor_cursor_min_counterexample :
    busySpinWaitFor 3 5 [10] false = some (WaitResult.available 10) ∧
    ¬ ((10 : Int) = min (5 : Int) (10 : Int)) := by
  constructor
  · rfl
  · decide

/-- C5 amended: every wait-strategy variant, when it terminates, either has
observed the alert flag true, or returns v >= target where v is the cursor
when the dependency list is empty and the least element of the dependency
list otherwise (the cursor is only the fold default and is ignored when
dependencies exist). -/
theorem waitFor_amended_spec (target cursor : Int) (deps : List Int) (alerted : Bool)
    (hb : ∀ d ∈ deps, d ≤ longMax) :
    (∀ r, busySpinWaitFor target cursor deps alerted = some r →
      (r = WaitResult.alerted → alerted = true) ∧
      (∀ v, r = WaitResult.available v → target ≤ v ∧ (deps = [] → v = cursor) ∧
        (deps ≠ [] → v ∈ deps ∧ ∀ d ∈ deps, v ≤ d))) ∧
    (∀ r, yieldingWaitFor target cursor deps alerted = some r →
      (r = WaitResult.alerted → alerted = true) ∧
      (∀ v, r = WaitResult.available v → target ≤ v ∧ (deps = [] → v = cursor) ∧
        (deps ≠ [] → v ∈ deps ∧ ∀ d ∈ deps, v ≤ d))) ∧
    (∀ r, sleepingWaitFor target cursor deps alerted = some r →
      (r = WaitResult.alerted → alerted = true) ∧
      (∀ v, r = WaitResult.available v → target ≤ v ∧ (deps = [] → v = cursor) ∧
        (deps ≠ [] → v ∈ deps ∧ ∀ d ∈ deps, v ≤ d))) ∧
    (∀ r, blockingWaitFor target cursor deps alerted = some r →
      (r = WaitResult.alerted → alerted = true) ∧
      (∀ v, r = WaitResult.available v → target ≤ v ∧ (deps = [] → v = cursor) ∧
        (deps ≠ [] → v ∈ deps ∧ ∀ d ∈ deps, v ≤ d))) := by
  have hava : ∀ v : Int,
      v = (if deps.isEmpty then cursor else getMinimumSequence deps cursor) →
      (deps = [] → v = cursor) ∧ (deps ≠ [] → v ∈ deps ∧ ∀ d ∈ deps, v ≤ d) := by
    intro v hv
    constructor
    · intro hd; subst hd; simpa using hv
    · intro hd
      have hemp : deps.isEmpty = false := by
        cases deps with
        | nil => exact absurd rfl hd
        | cons y ys => rfl
      rw [hemp] at hv
      simp only [Bool.false_eq_true, if_false] at hv
      subst hv
      exact getMinimumSequence_spec deps cursor hd hb
  have hava2 : ∀ v : Int, v = getMinimumSequence deps cursor →
      (deps = [] → v = cursor) ∧ (deps ≠ [] → v ∈ deps ∧ ∀ d ∈ deps, v ≤ d) := by
    intro v hv
    constructor
    · intro hd; subst hd; subst hv; rfl
    · intro hd
      subst hv
      exact getMinimumSequence_spec deps cursor hd hb
  refine ⟨?_, ?_, ?_, ?_⟩
  · intro r hr
    simp only [busySpinWaitFor] at hr
    by_cases hge : target ≤ (if deps.isEmpty then cursor else getMinimumSequence deps cursor)
    · rw [if_pos hge] at hr
      injection hr with hr; subst hr
      constructor
      · intro h; cases h
      · intro v hv
        injection hv with hv
        subst hv
        exact ⟨hge, hava _ rfl⟩
    · rw [if_neg hge] at hr
      by_cases hal : alerted = true
      · rw [if_pos hal] at hr
        injection hr with hr; subst hr
        exact ⟨fun _ => hal, fun v hv => by cases hv⟩
      · rw [if_neg hal] at hr
        cases hr
  · intro r hr
    simp only [yieldingWaitFor] at hr
    by_cases hge : target ≤ (if deps.isEmpty then cursor else getMinimumSequence deps cursor)
    · rw [if_pos hge] at hr
      injection hr with hr; subst hr
      constructor
      · intro h; cases h
      · intro v hv
        injection hv with hv
        subst hv
        exact ⟨hge, hava _ rfl⟩
    · rw [if_neg hge] at hr
      by_cases hal : alerted = true
      · rw [if_pos hal] at hr
        injection hr with hr; subst hr
        exact ⟨fun _ => hal, fun v hv => by cases hv⟩
      · rw [if_neg hal] at hr
        cases hr
  · intro r hr
    simp only [sleepingWaitFor] at hr
    by_cases hal : alerted = true
    · rw [if_pos hal] at hr
      injection hr with hr; subst hr
      exact ⟨fun _ => hal, fun v hv => by cases hv⟩
    · rw [if_neg hal] at hr
      by_cases hge : target ≤ (if deps.isEmpty then cursor else getMinimumSequence deps cursor)
      · rw [if_pos hge] at hr
        injection hr with hr; subst hr
        constructor
        · intro h; cases h
        · intro v hv
          injection hv with hv
          subst hv
          exact ⟨hge, hava _ rfl⟩
      · rw [if_neg hge] at hr
        cases hr
  · intro r hr
    simp only [blockingWaitFor] at hr
    by_cases hal : alerted = true
    · rw [if_pos hal] at hr
      injection hr with hr; subst hr
      exact ⟨fun _ => hal, fun v hv => by cases hv⟩
    · rw [if_neg hal] at hr
      by_cases hge : target ≤ getMinimumSequence deps cursor
      · rw [if_pos hge] at hr
        injection hr with hr; subst hr
        constructor
        · intro h; cases h
        · intro v hv
          injection hv with hv
          subst hv
          exact ⟨hge, hava2 _ rfl⟩
      · rw [if_neg hge] at hr
        cases hr

/-- Witness for C5 (amended) at target 0, cursor 5, one dependency 3. -/
theorem waitFor_amended_spec_witness :
    (∀ d ∈ ([3] : List Int), d ≤ longMax) ∧
    (∀ r, busySpinWaitFor 0 5 [3] false = some r →
      (r = WaitResult.alerted → false = true) ∧
      (∀ v, r = WaitResult.available v → (0 : Int) ≤ v ∧ (([3] : List Int) = [] → v = 5) ∧
        (([3] : List Int) ≠ [] → v ∈ ([3] : List Int) ∧ ∀ d ∈ ([3] : List Int), v ≤ d))) :=
  ⟨by decide, (waitFor_amended_spec 0 5 [3] false (by decide)).1⟩

/-- Unfolding of the attempted list of the WorkProcessor consume loop. -/
theorem wpConsumeLoop_fst_succ (throws : Int → Bool) (f : Nat) (start : Int) :
    (wpConsumeLoop throws (f + 1) start).1 =
      start :: (wpConsumeLoop throws f (start + 1)).1 := rfl

/-- Unfolding of the succeeded list of the WorkProcessor consume loop. -/
theorem wpConsumeLoop_snd_succ (throws : Int → Bool) (f : Nat) (start : Int) :
    (wpConsumeLoop throws (f + 1) start).2 =
      if throws start then (wpConsumeLoop throws f (start + 1)).2
      else start :: (wpConsumeLoop throws f (start + 1)).2 := rfl

/-- Membership in the attempted and succeeded lists of the WorkProcessor
consume loop. -/
theorem wpConsumeLoop_mem (throws : Int → Bool) : ∀ (fuel : Nat) (start s : Int),
    (s ∈ (wpConsumeLoop throws fuel start).1 ↔ start ≤ s ∧ s < start + fuel) ∧
    (s ∈ (wpConsumeLoop throws fuel start).2 ↔
      start ≤ s ∧ s < start + fuel ∧ throws s = false) := by
  intro fuel
  induction fuel with
  | zero =>
    intro start s
    constructor
    · simp only [wpConsumeLoop, List.not_mem_nil, false_iff]
      omega
    · simp only [wpConsumeLoop, List.not_mem_nil, false_iff]
      omega
  | succ f ih =>
    intro start s
    constructor
    · rw [wpConsumeLoop_fst_succ, List.mem_cons, (ih (start + 1) s).1]
      omega
    · rw [wpConsumeLoop_snd_succ]
      by_cases ht : throws start = true
      · rw [if_pos ht, (ih (start + 1) s).2]
        constructor
        · intro h
          exact ⟨by omega, by omega, h.2.2⟩
        · intro h
          have hne : ¬ s = start := by
            intro he
            rw [he] at h
            rw [h.2.2] at ht
            cases ht
          exact ⟨by omega, by omega, h.2.2⟩
      · rw [if_neg ht, List.mem_cons, (ih (start + 1) s).2]
        constructor
        · intro h
          rcases h with he | h
          · subst he
            refine ⟨le_refl s, by omega, ?_⟩
            cases hts : throws s
            · rfl
            · exact absurd hts ht
          · exact ⟨by omega, by omega, h.2.2⟩
        · intro h
          by_cases he : s = start
          · exact Or.inl he
          · exact Or.inr ⟨by omega, by omega, h.2.2⟩

/-- C7 counterexample: with the handler throwing at sequence 1 inside the
chunk [0..2], the WorkProcessor records no exception-handler delivery (the
empty catch block discards the error), refuting the claim that the error is
still delivered to a configured exception handler; the worker nevertheless
advances its Sequence to 2, past the failing sequence. -/
theorem workProcessor_delivery_counterexample :
    (WorkProcessor.consumeChunk (fun s => s == 1) 0 2).excDeliveries = [] ∧
    (WorkProcessor.consumeChunk (fun s => s == 1) 0 2).attempted = [0, 1, 2] ∧
    (WorkProcessor.consumeChunk (fun s => s == 1) 0 2).succeeded = [0, 2] ∧
    (WorkProcessor.consumeChunk (fun s => s == 1) 0 2).finalSequence = 2 := by
  refine ⟨rfl, rfl, rfl, rfl⟩

/-- C7 amended: a work handler exception is swallowed per-event: the worker
attempts every sequence of the chunk (so it keeps running and skips to the
next sequence after a failure), its own Sequence is set to the chunk high
(advancing past any failing sequence), and the error is not delivered
anywhere: the processor makes no exception-handler call. -/
theorem workProcessor_swallow_spec (throws : Int → Bool) (nextSequence hi : Int) :
    (WorkProcessor.consumeChunk throws nextSequence hi).finalSequence = hi ∧
    (WorkProcessor.consumeChunk throws nextSequence hi).excDeliveries = [] ∧
    (∀ s : Int, s ∈ (WorkProcessor.consumeChunk throws nextSequence hi).attempted ↔
      nextSequence ≤ s ∧ s ≤ hi) ∧
    (∀ s : Int, s ∈ (WorkProcessor.consumeChunk throws nextSequence hi).succeeded ↔
      nextSequence ≤ s ∧ s ≤ hi ∧ throws s = false) := by
  refine ⟨rfl, rfl, ?_, ?_⟩
  · intro s
    show s ∈ (wpConsumeLoop throws (hi + 1 - nextSequence).toNat nextSequence).1 ↔ _
    rw [(wpConsumeLoop_mem throws (hi + 1 - nextSequence).toNat nextSequence s).1]
    omega
  · intro s
    show s ∈ (wpConsumeLoop throws (hi + 1 - nextSequence).toNat nextSequence).2 ↔ _
    rw [(wpConsumeLoop_mem throws (hi + 1 - nextSequence).toNat nextSequence s).2]
    constructor
    · intro h
      exact ⟨h.1, by omega, h.2.2⟩
    · intro h
      exact ⟨h.1, by omega, h.2.2⟩

/-- C3: evaluation of the BatchEventProcessor loop at the failing input: own
Sequence 2, drain start nextSequence 3, waitFor returned available 7, handler
throwing at sequence 5.  The code calls onEvent for 3, 4, 5, then the catch
block reports the exception at sequence 3 (the drain start, not the failing
sequence 5), sets the processor Sequence to 3 and nextSequence to 4, so
sequences 4 and 5 will be delivered to the handler a second time; the claim
(with the spec) requires Sequence = 5 and next = 6. -/
theorem batchProcessor_exception_failing_eval :
    BatchEventProcessor.iterate (fun s => s == 5) ⟨2, 3, [], []⟩ 7 =
      ⟨3, 4, [3], [3, 4, 5]⟩ ∧
    (3 : Int) ≠ 5 ∧ (4 : Int) ≠ 5 + 1 := by
  refine ⟨rfl, by decide, by decide⟩

/-- Positions and counter values of the claim-trace fold: the i-th claim event
carries worker tr[i] and counter value c + i. -/
theorem runClaimTrace_mem (tr : List Nat) : ∀ (c : Int) (w : Nat) (b : Int),
    (w, b) ∈ runClaimTrace tr c ↔
      ∃ i : Nat, i < tr.length ∧ tr[i]? = some w ∧ b = c + i := by
  induction tr with
  | nil =>
    intro c w b
    simp [runClaimTrace]
  | cons x xs ih =>
    intro c w b
    rw [runClaimTrace]
    simp only [List.mem_cons]
    constructor
    · intro h
      rcases h with h | h
      · injection h with h1 h2
        refine ⟨0, by simp, by simp [h1], by omega⟩
      · obtain ⟨i, hi, hget, hb⟩ := (ih (c + 1) w b).mp h
        refine ⟨i + 1, by simp only [List.length_cons]; omega, ?_, by push_cast; omega⟩
        rw [List.getElem?_cons_succ]
        exact hget
    · rintro ⟨i, hi, hget, hb⟩
      cases i with
      | zero =>
        left
        rw [List.getElem?_cons_zero] at hget
        injection hget with hget
        rw [← hget, hb]
        simp
      | succ j =>
        right
        rw [List.getElem?_cons_succ] at hget
        refine (ih (c + 1) w b).mpr ⟨j, ?_, hget, by push_cast at hb ⊢; omega⟩
        simp only [List.length_cons] at hi
        omega

/-- Characterization of the handled sequences of one worker: worker w handles
sequence s exactly when s is published (0 <= s < M) and the claim event at
position s of the trace was made by w. -/
theorem handledSeqs_mem (tr : List Nat) (M : Int) (w : Nat) (s : Int) :
    s ∈ handledSeqs tr M w ↔
      0 ≤ s ∧ s < M ∧ s.toNat < tr.length ∧ tr[s.toNat]? = some w := by
  rw [handledSeqs, poolClaims]
  rw [List.mem_map]
  constructor
  · rintro ⟨e, he, hes⟩
    rw [List.mem_filter] at he
    obtain ⟨hmem, hcond⟩ := he
    rcases e with ⟨w1, b⟩
    simp only [Bool.and_eq_true, beq_iff_eq, decide_eq_true_eq] at hcond
    obtain ⟨hw, hM⟩ := hcond
    obtain ⟨i, hi, hget, hb⟩ := (runClaimTrace_mem tr (-1) w1 b).mp hmem
    subst hw
    simp only at hes
    have hsi : s.toNat = i := by omega
    refine ⟨by omega, by omega, ?_, ?_⟩
    · rw [hsi]; exact hi
    · rw [hsi]; exact hget
  · rintro ⟨h0, hM, hlen, hget⟩
    refine ⟨(w, s - 1), ?_, by simp⟩
    rw [List.mem_filter]
    constructor
    · exact (runClaimTrace_mem tr (-1) w (s - 1)).mpr ⟨s.toNat, hlen, hget, by omega⟩
    · simp only [Bool.and_eq_true, beq_iff_eq, decide_eq_true_eq]
      refine ⟨by simp, by omega⟩

/-- C6: when M sequences are published and the workers of a pool make at least
M claims on the shared workSequence counter, the per-worker handled sets are
pairwise disjoint and their union is exactly the published range 0 .. M-1:
every published sequence is processed by exactly one worker. -/
theorem workerPool_exclusive_spec (tr : List Nat) (M : Int)
    (hM : M ≤ (tr.length : Int)) :
    (∀ w w2 : Nat, w ≠ w2 → ∀ s : Int,
      s ∈ handledSeqs tr M w → s ∉ handledSeqs tr M w2) ∧
    (∀ s : Int, (∃ w : Nat, s ∈ handledSeqs tr M w) ↔ 0 ≤ s ∧ s < M) := by
  constructor
  · intro w w2 hne s hw hw2
    rw [handledSeqs_mem] at hw hw2
    have h1 : some w = some w2 := by rw [← hw.2.2.2, ← hw2.2.2.2]
    injection h1 with h1
    exact hne h1
  · intro s
    constructor
    · rintro ⟨w, hw⟩
      rw [handledSeqs_mem] at hw
      exact ⟨hw.1, hw.2.1⟩
    · rintro ⟨h0, hsM⟩
      have hlen : s.toNat < tr.length := by omega
      refine ⟨tr[s.toNat], ?_⟩
      rw [handledSeqs_mem]
      exact ⟨h0, hsM, hlen, List.getElem?_eq_getElem hlen⟩

/-- Witness for C6 on the trace [0, 1, 0] (worker 0 claims sequences 0 and 2,
worker 1 claims sequence 1) with M = 3 published sequences. -/
theorem workerPool_exclusive_spec_witness :
    (3 : Int) ≤ (([0, 1, 0] : List Nat).length : Int) ∧
    ((∀ w w2 : Nat, w ≠ w2 → ∀ s : Int,
        s ∈ handledSeqs [0, 1, 0] 3 w → s ∉ handledSeqs [0, 1, 0] 3 w2) ∧
     (∀ s : Int, (∃ w : Nat, s ∈ handledSeqs [0, 1, 0] 3 w) ↔ 0 ≤ s ∧ s < 3)) :=
  ⟨by decide, workerPool_exclusive_spec [0, 1, 0] 3 (by decide)⟩


/-- Characterization of the scan loop of getHighestPublishedSequence: for a
scan of the window [start .. available], the result h lies in
[start - 1, available], every sequence in [start .. h] satisfies the
predicate, and h is the largest value in [start - 1, available] with that
property. -/
theorem scanHighest_spec (p : Int → Bool) (available : Int) :
    ∀ (fuel : Nat) (start : Int), start = available + 1 - (fuel : Int) →
      (start - 1 ≤ scanHighest p available fuel start ∧
       scanHighest p available fuel start ≤ available) ∧
      (∀ t : Int, start ≤ t → t ≤ scanHighest p available fuel start → p t = true) ∧
      (∀ x : Int, start - 1 ≤ x → x ≤ available →
        (∀ t : Int, start ≤ t → t ≤ x → p t = true) →
        x ≤ scanHighest p available fuel start) := by
  intro fuel
  induction fuel with
  | zero =>
    intro start hs
    have hred : scanHighest p available 0 start = available := rfl
    rw [hred]
    push_cast at hs
    refine ⟨⟨by omega, by omega⟩, ?_, ?_⟩
    · intro t ht1 ht2
      have hfalse : False := by omega
      exact hfalse.elim
    · intro x h1 h2 h3
      omega
  | succ f ih =>
    intro start hs
    push_cast at hs
    have hs2 : start + 1 = available + 1 - (f : Int) := by omega
    cases hp : p start with
    | true =>
      have hred : scanHighest p available (f + 1) start =
          scanHighest p available f (start + 1) := by
        simp [scanHighest, hp]
      rw [hred]
      obtain ⟨⟨hb1, hb2⟩, hall, hmax⟩ := ih (start + 1) hs2
      refine ⟨⟨by omega, hb2⟩, ?_, ?_⟩
      · intro t ht1 ht2
        by_cases hts : t = start
        · rw [hts]; exact hp
        · exact hall t (by omega) ht2
      · intro x h1 h2 h3
        by_cases hx : x ≤ start - 1
        · omega
        · exact hmax x (by omega) h2 (fun t ht1 ht2 => h3 t (by omega) ht2)
    | false =>
      have hred : scanHighest p available (f + 1) start = start - 1 := by
        simp [scanHighest, hp]
      rw [hred]
      refine ⟨⟨le_refl _, by omega⟩, ?_, ?_⟩
      · intro t ht1 ht2
        have hfalse : False := by omega
        exact hfalse.elim
      · intro x h1 h2 h3
        by_cases hx : start ≤ x
        · have hc := h3 start (le_refl _) hx
          rw [hc] at hp
          cases hp
        · omega

/-- C2: publishing a sequence stores the round number s >> k into the
availability slot at index s & (N-1), isAvailable holds exactly when the slot
entry equals the round number, and getHighestPublishedSequence(lowerBound,
available) returns the largest h in [lowerBound - 1, available] such that
every sequence in [lowerBound .. h] is available (equivalently: the sequence
before the first gap, or available when there is none). -/
theorem multiProducer_availability_spec (st : MultiProducerSequencer)
    (s lowerBound available : Int)
    (hlen : st.availableBuffer.length = st.bufferSize.toNat)
    (hbs : st.bufferSize = 2 ^ st.indexShift)
    (hmask : st.indexMask = st.bufferSize - 1)
    (hla : lowerBound ≤ available) :
    ((st.setAvailable s).availableBuffer.getD (st.calculateIndex s) 0 =
      Int.fdiv s (2 ^ st.indexShift)) ∧
    ((st.setAvailable s).isAvailable s = true) ∧
    (∀ t : Int, st.isAvailable t = true ↔
      st.availableBuffer.getD (st.calculateIndex t) 0 = st.calculateAvailabilityFlag t) ∧
    (lowerBound - 1 ≤ st.getHighestPublishedSequence lowerBound available ∧
     st.getHighestPublishedSequence lowerBound available ≤ available) ∧
    (∀ t : Int, lowerBound ≤ t → t ≤ st.getHighestPublishedSequence lowerBound available →
      st.isAvailable t = true) ∧
    (∀ x : Int, lowerBound - 1 ≤ x → x ≤ available →
      (∀ t : Int, lowerBound ≤ t → t ≤ x → st.isAvailable t = true) →
      x ≤ st.getHighestPublishedSequence lowerBound available) ∧
    (st.getHighestPublishedSequence lowerBound available = available ∨
     st.isAvailable (st.getHighestPublishedSequence lowerBound available + 1) = false) := by
  have hcast : ((2 ^ st.indexShift : Nat) : Int) = (2 : Int) ^ st.indexShift := by
    push_cast; ring
  have hmaskNat : st.indexMask.toNat = 2 ^ st.indexShift - 1 := by
    rw [hmask, hbs, ← hcast]
    omega
  have hlenNat : st.availableBuffer.length = 2 ^ st.indexShift := by
    rw [hlen, hbs, ← hcast, Int.toNat_natCast]
  have hidx : ∀ t : Int, st.calculateIndex t < st.availableBuffer.length := by
    intro t
    have h1 : st.calculateIndex t ≤ st.indexMask.toNat := Nat.and_le_right
    have h2 : 0 < 2 ^ st.indexShift := Nat.two_pow_pos st.indexShift
    rw [hlenNat]
    rw [hmaskNat] at h1
    omega
  have hset : ∀ t : Int, (st.setAvailable t).availableBuffer.getD (st.calculateIndex t) 0 =
      st.calculateAvailabilityFlag t := by
    intro t
    show (st.availableBuffer.set (st.calculateIndex t) (st.calculateAvailabilityFlag t)).getD
        (st.calculateIndex t) 0 = _
    rw [List.getD_eq_getElem?_getD, List.getElem?_set_self (hidx t), Option.getD_some]
  have hgh : st.getHighestPublishedSequence lowerBound available =
      scanHighest (fun t => st.isAvailable t) available
        ((available + 1 - lowerBound).toNat) lowerBound := rfl
  have hstart : lowerBound = available + 1 - (((available + 1 - lowerBound).toNat : Nat) : Int) := by
    omega
  obtain ⟨⟨hb1, hb2⟩, hall, hmax⟩ := scanHighest_spec (fun t => st.isAvailable t) available
    ((available + 1 - lowerBound).toNat) lowerBound hstart
  rw [hgh]
  refine ⟨hset s, ?_, ?_, ⟨hb1, hb2⟩, hall, hmax, ?_⟩
  · show ((st.setAvailable s).availableBuffer.getD (st.calculateIndex s) 0 ==
        st.calculateAvailabilityFlag s) = true
    rw [hset s]
    exact beq_self_eq_true _
  · intro t
    show (st.availableBuffer.getD (st.calculateIndex t) 0 ==
        st.calculateAvailabilityFlag t) = true ↔ _
    exact beq_iff_eq
  · by_cases hh : scanHighest (fun t => st.isAvailable t) available
        ((available + 1 - lowerBound).toNat) lowerBound = available
    · exact Or.inl hh
    · right
      cases hav : st.isAvailable (scanHighest (fun t => st.isAvailable t) available
          ((available + 1 - lowerBound).toNat) lowerBound + 1) with
      | false => rfl
      | true =>
        exfalso
        have hx := hmax (scanHighest (fun t => st.isAvailable t) available
            ((available + 1 - lowerBound).toNat) lowerBound + 1) (by omega) (by omega) ?_
        · omega
        · intro t ht1 ht2
          by_cases hth : t ≤ scanHighest (fun t => st.isAvailable t) available
              ((available + 1 - lowerBound).toNat) lowerBound
          · exact hall t ht1 hth
          · have hteq : t = scanHighest (fun t => st.isAvailable t) available
                ((available + 1 - lowerBound).toNat) lowerBound + 1 := by omega
            rw [hteq]
            exact hav

/-- Witness for C2 at the concrete multi-producer sequencer mpsW, publishing
sequence 5 and scanning the window [0 .. 0]. -/
theorem multiProducer_availability_spec_witness :
    (mpsW.availableBuffer.length = mpsW.bufferSize.toNat) ∧
    (mpsW.bufferSize = 2 ^ mpsW.indexShift) ∧
    (mpsW.indexMask = mpsW.bufferSize - 1) ∧
    ((0 : Int) ≤ 0) ∧
    ((mpsW.setAvailable 5).isAvailable 5 = true) :=
  ⟨by decide, by decide, by decide, by decide,
   (multiProducer_availability_spec mpsW 5 0 0 (by decide) (by decide) (by decide)
      (by decide)).2.1⟩

/-- A power of two and its predecessor share no set bit. -/
theorem two_pow_land_pred (k : Nat) : (2 ^ k) &&& (2 ^ k - 1) = 0 := by
  apply Nat.eq_of_testBit_eq
  intro i
  rw [Nat.testBit_and, Nat.testBit_two_pow, Nat.testBit_two_pow_sub_one, Nat.zero_testBit]
  by_cases h : k = i
  · subst h
    simp
  · simp [h]

/-- The bit trick of isPowerOfTwo: for positive n, n & (n-1) == 0 holds
exactly when n is a power of two. -/
theorem land_pred_eq_zero_iff (n : Nat) (hn : 0 < n) :
    (n &&& (n - 1)) = 0 ↔ ∃ k : Nat, n = 2 ^ k := by
  constructor
  · intro h
    refine ⟨n.log2, ?_⟩
    have h1 : 2 ^ n.log2 ≤ n := Nat.log2_self_le (by omega)
    have h2 : n < 2 ^ (n.log2 + 1) := Nat.lt_log2_self
    have hps : 2 ^ (n.log2 + 1) = 2 ^ n.log2 * 2 := pow_succ 2 n.log2
    by_contra hne
    have hlt : 2 ^ n.log2 < n := by omega
    have hd1 : n / 2 ^ n.log2 = 1 := by
      apply Nat.div_eq_of_lt_le
      · omega
      · omega
    have hd2 : (n - 1) / 2 ^ n.log2 = 1 := by
      apply Nat.div_eq_of_lt_le
      · omega
      · omega
    have hb1 : n.testBit n.log2 = true := by
      rw [Nat.testBit_to_div_mod, hd1]
      rfl
    have hb2 : (n - 1).testBit n.log2 = true := by
      rw [Nat.testBit_to_div_mod, hd2]
      rfl
    have h0 : (n &&& (n - 1)).testBit n.log2 = false := by
      rw [h]
      exact Nat.zero_testBit _
    rw [Nat.testBit_and, hb1, hb2] at h0
    cases h0
  · rintro ⟨k, rfl⟩
    exact two_pow_land_pred k

/-- isPowerOfTwo agrees with the mathematical notion for Int capacities. -/
theorem isPowerOfTwo_iff (N : Int) :
    isPowerOfTwo N = true ↔ 0 < N ∧ ∃ k : Nat, N = 2 ^ k := by
  rw [isPowerOfTwo, Bool.and_eq_true]
  simp only [decide_eq_true_eq, beq_iff_eq]
  constructor
  · rintro ⟨h1, h2⟩
    have hN : 0 < N.toNat := by omega
    obtain ⟨k, hk⟩ := (land_pred_eq_zero_iff N.toNat hN).mp h2
    refine ⟨h1, k, ?_⟩
    have hcast : ((N.toNat : Nat) : Int) = N := Int.toNat_of_nonneg (by omega)
    rw [← hcast, hk]
    push_cast
    ring
  · rintro ⟨hpos, k, hk⟩
    refine ⟨hpos, ?_⟩
    apply (land_pred_eq_zero_iff N.toNat (by omega)).mpr
    refine ⟨k, ?_⟩
    have hc : ((2 ^ k : Nat) : Int) = (2 : Int) ^ k := by push_cast; ring
    omega

/-- C4: constructing a ring buffer with a capacity that is zero, negative or
not a power of two fails with the invalid-capacity error; a capacity that is
a positive power of two succeeds, and a successful construction populates
exactly N slots, slot i holding the value of the i-th factory call (so the
factory runs exactly N times, once per slot, before any access). -/
theorem ringBuffer_construction_spec (T : Type) (factory : Nat → T) (N : Int) :
    ((N ≤ 0 ∨ ¬ ∃ k : Nat, N = 2 ^ k) →
      mkRingBuffer T factory N = Except.error DError.invalidCapacity) ∧
    ((0 < N ∧ ∃ k : Nat, N = 2 ^ k) → ∃ rb, mkRingBuffer T factory N = Except.ok rb) ∧
    (∀ rb, mkRingBuffer T factory N = Except.ok rb →
      rb.entries.length = N.toNat ∧
      ∀ i : Nat, rb.entries[i]? = if i < N.toNat then some (factory i) else none) := by
  refine ⟨?_, ?_, ?_⟩
  · intro h
    have hfalse : ¬ isPowerOfTwo N = true := by
      rw [isPowerOfTwo_iff]
      rintro ⟨h1, h2⟩
      rcases h with h | h
      · omega
      · exact h h2
    rw [mkRingBuffer, if_neg hfalse]
  · intro h
    have htrue : isPowerOfTwo N = true := (isPowerOfTwo_iff N).mpr h
    rw [mkRingBuffer, if_pos htrue]
    exact ⟨_, rfl⟩
  · intro rb hrb
    rw [mkRingBuffer] at hrb
    by_cases htrue : isPowerOfTwo N = true
    · rw [if_pos htrue] at hrb
      injection hrb with hrb
      subst hrb
      constructor
      · simp
      · intro i
        by_cases hi : i < N.toNat
        · rw [if_pos hi, List.getElem?_map, List.getElem?_range hi]
          rfl
        · rw [if_neg hi, List.getElem?_map,
            List.getElem?_eq_none (by simpa using hi)]
          rfl
    · rw [if_neg htrue] at hrb
      cases hrb

/-- Witness for C4: capacity 4 succeeds and fills the four slots from factory
calls 0, 1, 2, 3. -/
theorem ringBuffer_construction_spec_witness :
    mkRingBuffer Nat (fun i => i) 4 = Except.ok rbW ∧
    (rbW.entries.length = (4 : Int).toNat ∧
     ∀ i : Nat, rbW.entries[i]? = if i < (4 : Int).toNat then some i else none) :=
  ⟨rfl, (ringBuffer_construction_spec Nat (fun i => i) 4).2.2 rbW rfl⟩

end Disruptor
